import Mathlib

/-!
Verification of `scripts/generate_icon.py`: a utility that draws a white
six-armed snowflake on a black rounded square and writes it as PNG files
of fixed sizes into two iconset directories.

The embedding below mirrors the script:
* Python floats are embedded as exact real numbers (`ℝ`); `int(x)` on a
  nonnegative value is embedded as the floor, computed over `ℚ` where the
  operand is rational.
* a `draw.line`/`draw.rounded_rectangle` call is recorded as a `DrawOp`;
  an image is its mode, its dimensions, its background pixel and the list
  of draw calls performed on it, in order.
* `main`'s filesystem effects are recorded as a trace of print and write
  events, parameterised by which of the two target directories exist.
-/

namespace Frost

/-- Colors used by the script: only the string literals "black" and "white". -/
inductive Color
  | black
  | white
deriving DecidableEq

/-- One `draw.line([(sx, sy), (ex, ey)], fill = color, width = w)` call. -/
structure LineCall where
  sx : ℝ
  sy : ℝ
  ex : ℝ
  ey : ℝ
  color : Color
  width : ℤ

/-- math.radians: degrees to radians. -/
noncomputable def radians (deg : ℝ) : ℝ := deg * Real.pi / 180

/-- arm_length = size * 0.28 -/
noncomputable def arm_length (size : ℕ) : ℝ := (size : ℝ) * 0.28

/-- branch_length = size * 0.10 -/
noncomputable def branch_length (size : ℕ) : ℝ := (size : ℝ) * 0.10

/-- branch_offset = size * 0.14 -/
noncomputable def branch_offset (size : ℕ) : ℝ := (size : ℝ) * 0.14

/-- line_width = max(1, int(size * 0.04)); `int` truncates toward zero,
which on a nonnegative operand is the floor. -/
def line_width (size : ℕ) : ℤ := max 1 ⌊(size : ℚ) * 0.04⌋

/-- angle = math.radians(i * 60 + 90) -/
noncomputable def armAngle (i : ℕ) : ℝ := radians ((i : ℝ) * 60 + 90)

/-- Endpoint of the main arm i: (center_x + arm_length·cos angle, center_y − arm_length·sin angle). -/
noncomputable def armEnd (cx cy : ℝ) (size : ℕ) (i : ℕ) : ℝ × ℝ :=
  (cx + arm_length size * Real.cos (armAngle i),
   cy - arm_length size * Real.sin (armAngle i))

/-- Start point of both branches of arm i:
(center_x + branch_offset·cos angle, center_y − branch_offset·sin angle). -/
noncomputable def branchStart (cx cy : ℝ) (size : ℕ) (i : ℕ) : ℝ × ℝ :=
  (cx + branch_offset size * Real.cos (armAngle i),
   cy - branch_offset size * Real.sin (armAngle i))

/-- branch_angle = angle + branch_dir * math.radians(45). -/
noncomputable def branchAngle (i : ℕ) (dir : ℤ) : ℝ :=
  armAngle i + (dir : ℝ) * radians 45

/-- Endpoint of the branch of arm i in direction dir ∈ {-1, 1}. -/
noncomputable def branchEnd (cx cy : ℝ) (size : ℕ) (i : ℕ) (dir : ℤ) : ℝ × ℝ :=
  ((branchStart cx cy size i).1 + branch_length size * Real.cos (branchAngle i dir),
   (branchStart cx cy size i).2 - branch_length size * Real.sin (branchAngle i dir))

/-- The three `draw.line` calls made for arm i, in program order:
the main arm, then the branch for branch_dir = -1, then for branch_dir = 1. -/
noncomputable def armOps (cx cy : ℝ) (size : ℕ) (color : Color) (i : ℕ) : List LineCall :=
  [⟨cx, cy, (armEnd cx cy size i).1, (armEnd cx cy size i).2, color, line_width size⟩,
   ⟨(branchStart cx cy size i).1, (branchStart cx cy size i).2,
    (branchEnd cx cy size i (-1)).1, (branchEnd cx cy size i (-1)).2, color, line_width size⟩,
   ⟨(branchStart cx cy size i).1, (branchStart cx cy size i).2,
    (branchEnd cx cy size i 1).1, (branchEnd cx cy size i 1).2, color, line_width size⟩]

/-- draw_snowflake(draw, center_x, center_y, size, color): the list of
`draw.line` calls it performs, in order (i = 0..5, arm then two branches). -/
noncomputable def draw_snowflake (cx cy : ℝ) (size : ℕ) (color : Color) : List LineCall :=
  (List.range 6).flatMap (armOps cx cy size color)

/-- One drawing call recorded on an image. -/
inductive DrawOp
  | rounded_rectangle (x0 y0 x1 y1 : ℝ) (radius : ℝ) (fill : Color)
  | line (l : LineCall)

/-- An in-memory image: mode, dimensions, background pixel (RGBA), and the
draw calls performed on it in order. -/
structure Icon where
  mode : String
  width : ℕ
  height : ℕ
  background : ℕ × ℕ × ℕ × ℕ
  ops : List DrawOp

/-- padding = int(size * 0.05) -/
def padding (size : ℕ) : ℤ := ⌊(size : ℚ) * 0.05⌋

/-- corner_radius = int(size * 0.22) -/
def corner_radius (size : ℕ) : ℤ := ⌊(size : ℚ) * 0.22⌋

/-- create_icon(size): a transparent RGBA size×size image, a black rounded
rectangle [padding, padding, size − padding, size − padding] with radius
corner_radius, then the white snowflake at center = size // 2 with the full
size as scale reference. -/
noncomputable def create_icon (size : ℕ) : Icon :=
  { mode := "RGBA"
    width := size
    height := size
    background := (0, 0, 0, 0)
    ops := DrawOp.rounded_rectangle (padding size) (padding size)
             ((size : ℝ) - (padding size : ℤ)) ((size : ℝ) - (padding size : ℤ))
             (corner_radius size) Color.black ::
           (draw_snowflake ((size / 2 : ℕ) : ℝ) ((size / 2 : ℕ) : ℝ) size Color.white).map
             DrawOp.line }

/-- The fixed size list of main(). -/
def sizes : List ℕ := [16, 32, 64, 128, 256, 512, 1024]

/-- The first target directory, relative to the repository root. -/
def main_iconset : String := "Blurred/Assets.xcassets/AppIcon.appiconset"

/-- The second target directory, relative to the repository root. -/
def launcher_iconset : String := "BlurredLauncher/Assets.xcassets/AppIcon.appiconset"

/-- Observable events of a run: lines printed to stdout and files written. -/
inductive Event
  | print (msg : String)
  | write (dir : String) (name : String) (icon : Icon)

/-- Which of the two target directories exist when the script runs. -/
structure Env where
  mainPresent : Bool
  launcherPresent : Bool

/-- The body of main() for one iconset directory: warn and skip when the
directory is missing, otherwise render and save every size in order. -/
noncomputable def processIconset (present : Bool) (dir : String) : List Event :=
  if present then
    Event.print ("Generating icons in " ++ dir) ::
      sizes.flatMap (fun s =>
        [Event.write dir (toString s ++ ".png") (create_icon s),
         Event.print ("  Created " ++ toString s ++ "x" ++ toString s ++ " icon")])
  else
    [Event.print ("Warning: " ++ dir ++ " does not exist")]

/-- main(): processes the two directories in order and prints the final
message; the function returns normally, so the process exit status is 0. -/
noncomputable def main (env : Env) : List Event × ℕ :=
  (processIconset env.mainPresent main_iconset ++
     processIconset env.launcherPresent launcher_iconset ++
     [Event.print "\nDone! Icon files have been generated."], 0)

/-- The whole script run: the import guard prints the install instruction
and exits with status 1 when Pillow is missing, else main() runs. -/
noncomputable def run (pillowPresent : Bool) (env : Env) : List Event × ℕ :=
  if pillowPresent then main env
  else ([Event.print "Please install Pillow: pip3 install Pillow"], 1)

/-- The files an event trace writes into a given directory. -/
def writesTo (out : List Event) (dir : String) : List (String × Icon) :=
  out.filterMap (fun e =>
    match e with
    | Event.write d name icon => if d = dir then some (name, icon) else none
    | Event.print _ => none)

/-! Geometry vocabulary used to state the claims. -/

/-- Euclidean length of the segment from (sx, sy) to (ex, ey). -/
noncomputable def segLength (sx sy ex ey : ℝ) : ℝ :=
  Real.sqrt ((ex - sx) ^ 2 + (ey - sy) ^ 2)

/-- The point at distance r from c in the direction of angle θ, in the
script's screen convention (the y component subtracts the sine because y
grows downward on the canvas). -/
noncomputable def pointAt (c : ℝ × ℝ) (θ r : ℝ) : ℝ × ℝ :=
  (c.1 + r * Real.cos θ, c.2 - r * Real.sin θ)

/-- Midpoint of the segment from (sx, sy) to (ex, ey). -/
noncomputable def segMidpoint (sx sy ex ey : ℝ) : ℝ × ℝ :=
  ((sx + ex) / 2, (sy + ey) / 2)

theorem segLength_pointAt (c : ℝ × ℝ) (θ r : ℝ) (h : 0 ≤ r) :
    segLength c.1 c.2 (pointAt c θ r).1 (pointAt c θ r).2 = r := by
  unfold segLength pointAt
  have key : (c.1 + r * Real.cos θ - c.1) ^ 2 + (c.2 - r * Real.sin θ - c.2) ^ 2
      = r ^ 2 := by
    calc (c.1 + r * Real.cos θ - c.1) ^ 2 + (c.2 - r * Real.sin θ - c.2) ^ 2
        = r ^ 2 * (Real.sin θ ^ 2 + Real.cos θ ^ 2) := by ring
      _ = r ^ 2 := by rw [Real.sin_sq_add_cos_sq, mul_one]
  rw [key]
  exact Real.sqrt_sq h

/-! Helper lemmas about the event trace of main(). -/

theorem writesTo_append (a b : List Event) (d : String) :
    writesTo (a ++ b) d = writesTo a d ++ writesTo b d := by
  simp [writesTo, List.filterMap_append]

theorem writesTo_main_first (pm pl : Bool) :
    writesTo (main ⟨pm, pl⟩).1 main_iconset =
      if pm then sizes.map (fun s => (toString s ++ ".png", create_icon s)) else [] := by
  have hne : ¬(launcher_iconset = main_iconset) := by decide
  cases pm <;> cases pl <;>
    simp [main, processIconset, writesTo, sizes, hne, List.filterMap_append]

theorem writesTo_main_second (pm pl : Bool) :
    writesTo (main ⟨pm, pl⟩).1 launcher_iconset =
      if pl then sizes.map (fun s => (toString s ++ ".png", create_icon s)) else [] := by
  have hne : ¬(main_iconset = launcher_iconset) := by decide
  cases pm <;> cases pl <;>
    simp [main, processIconset, writesTo, sizes, hne, List.filterMap_append]

/-! Claim theorems. -/

/-- C10: for every size, the branch-departure distance along each arm equals
exactly half the arm length (0.14·size = 0.28·size / 2), so both branches of
every arm start exactly at the arm's midpoint. -/
theorem C10_branches_start_at_arm_midpoint (cx cy : ℝ) (size : ℕ) :
    branch_offset size = arm_length size / 2 ∧
    ∀ i : ℕ, branchStart cx cy size i =
      segMidpoint cx cy (armEnd cx cy size i).1 (armEnd cx cy size i).2 := by
  constructor
  · unfold branch_offset arm_length; ring
  · intro i
    unfold branchStart segMidpoint armEnd branch_offset arm_length
    simp only [Prod.mk.injEq]
    constructor <;> ring

/-- C6 counterexample: at size 64 the code's stroke width is
max(1, int(64·0.04)) = 2, while max(1, 0.04·64) = 2.56 rounded to an
integer is 3, so the width is not max(1, 0.04·size) rounded to an integer. -/
theorem C6_counterexample :
    line_width 64 = 2 ∧ round (max (1 : ℚ) ((64 : ℚ) * 0.04)) = 3 ∧
      ¬((line_width 64 : ℤ) = round (max (1 : ℚ) ((64 : ℚ) * 0.04))) := by
  have hf : ⌊(64 : ℚ) * 0.04⌋ = 2 := by
    rw [Int.floor_eq_iff]
    norm_num
  have h1 : line_width 64 = 2 := by
    unfold line_width
    rw [show ((64 : ℕ) : ℚ) = (64 : ℚ) by norm_num, hf]
    decide
  have h2 : round (max (1 : ℚ) ((64 : ℚ) * 0.04)) = 3 := by
    rw [max_eq_right (by norm_num : (1 : ℚ) ≤ (64 : ℚ) * 0.04), round_eq,
      Int.floor_eq_iff]
    norm_num
  refine ⟨h1, h2, ?_⟩
  rw [h1, h2]
  norm_num

/-- C6 amended: for every size, the stroke width used for every arm and
branch segment equals max(1, ⌊0.04·size⌋), 0.04·size truncated toward zero
rather than rounded to the nearest integer; in particular it is at least
1 pixel. -/
theorem C6_stroke_width_floor (size : ℕ) :
    line_width size = max 1 ⌊(size : ℝ) * 0.04⌋ ∧ 1 ≤ line_width size := by
  constructor
  · unfold line_width
    congr 1
    have : ((size : ℝ) * 0.04) = (((size : ℚ) * 0.04 : ℚ) : ℝ) := by push_cast; ring
    rw [this, Rat.floor_cast]
  · exact le_max_left 1 _

/-- C5: rendering is a deterministic function of size alone: two calls to
create_icon with the same size produce identical rasters, and any (function)
encoding of the two rasters to PNG bytes gives byte-identical files. -/
theorem C5_deterministic (s1 s2 : ℕ) (h : s1 = s2) :
    create_icon s1 = create_icon s2 ∧
    ∀ encode : Icon → List ℕ, encode (create_icon s1) = encode (create_icon s2) := by
  subst h
  exact ⟨rfl, fun _ => rfl⟩

/-- C5 witness: the determinism theorem applied at size 16. -/
theorem C5_deterministic_witness :
    create_icon 16 = create_icon 16 ∧
    ∀ encode : Icon → List ℕ, encode (create_icon 16) = encode (create_icon 16) :=
  C5_deterministic 16 16 rfl

/-- C8: when Pillow cannot be imported the program prints the install
instruction and exits with status 1 (non-zero) having written no files;
when it is available the error branch is never taken and the run is main(). -/
theorem C8_import_guard (env : Env) :
    (run false env).2 = 1 ∧ (run false env).2 ≠ 0 ∧
    (run false env).1 = [Event.print "Please install Pillow: pip3 install Pillow"] ∧
    (∀ d : String, writesTo (run false env).1 d = []) ∧
    (∀ env2 : Env, run true env2 = main env2) := by
  refine ⟨rfl, one_ne_zero, rfl, fun d => ?_, fun env2 => rfl⟩
  simp [run, writesTo]

/-- C9: a missing target directory yields a warning naming it and no files
written into it, the other directory still gets all its files, and the run
exits with code 0 whichever directories are absent. -/
theorem C9_missing_directory_skipped (pm pl : Bool) :
    (main ⟨pm, pl⟩).2 = 0 ∧
    (pm = false →
      Event.print ("Warning: " ++ main_iconset ++ " does not exist") ∈ (main ⟨pm, pl⟩).1 ∧
      writesTo (main ⟨pm, pl⟩).1 main_iconset = []) ∧
    (pl = false →
      Event.print ("Warning: " ++ launcher_iconset ++ " does not exist") ∈ (main ⟨pm, pl⟩).1 ∧
      writesTo (main ⟨pm, pl⟩).1 launcher_iconset = []) ∧
    (pm = true → ∀ s ∈ sizes,
      (toString s ++ ".png", create_icon s) ∈ writesTo (main ⟨pm, pl⟩).1 main_iconset) ∧
    (pl = true → ∀ s ∈ sizes,
      (toString s ++ ".png", create_icon s) ∈ writesTo (main ⟨pm, pl⟩).1 launcher_iconset) := by
  refine ⟨rfl, ?_, ?_, ?_, ?_⟩
  · intro hpm
    subst hpm
    refine ⟨by simp [main, processIconset], ?_⟩
    rw [writesTo_main_first]
    simp
  · intro hpl
    subst hpl
    refine ⟨by simp [main, processIconset], ?_⟩
    rw [writesTo_main_second]
    simp
  · intro hpm s hs
    subst hpm
    rw [writesTo_main_first]
    simp only [if_true]
    exact List.mem_map.mpr ⟨s, hs, rfl⟩
  · intro hpl s hs
    subst hpl
    rw [writesTo_main_second]
    simp only [if_true]
    exact List.mem_map.mpr ⟨s, hs, rfl⟩

/-- C9 witness: the theorem applied with the first directory absent and the
second present. -/
theorem C9_missing_directory_skipped_witness :
    (main ⟨false, true⟩).2 = 0 ∧
    Event.print ("Warning: " ++ main_iconset ++ " does not exist") ∈ (main ⟨false, true⟩).1 ∧
    writesTo (main ⟨false, true⟩).1 main_iconset = [] ∧
    (toString 16 ++ ".png", create_icon 16) ∈ writesTo (main ⟨false, true⟩).1 launcher_iconset := by
  obtain ⟨h0, hm, _, _, hl⟩ := C9_missing_directory_skipped false true
  exact ⟨h0, (hm rfl).1, (hm rfl).2, hl rfl 16 (by decide)⟩

/-- C1: for every size in the fixed list and each target directory that
exists, running the script writes the file "{size}.png" into that directory,
and the written image is an RGBA raster of dimensions exactly size × size. -/
theorem C1_files_written (pm pl : Bool) (s : ℕ) (hs : s ∈ sizes) :
    (pm = true →
      (toString s ++ ".png", create_icon s) ∈ writesTo (run true ⟨pm, pl⟩).1 main_iconset) ∧
    (pl = true →
      (toString s ++ ".png", create_icon s) ∈ writesTo (run true ⟨pm, pl⟩).1 launcher_iconset) ∧
    (create_icon s).mode = "RGBA" ∧
    (create_icon s).width = s ∧ (create_icon s).height = s := by
  refine ⟨?_, ?_, rfl, rfl, rfl⟩
  · intro hpm
    subst hpm
    show _ ∈ writesTo (main ⟨true, pl⟩).1 main_iconset
    rw [writesTo_main_first]
    simp only [if_true]
    exact List.mem_map.mpr ⟨s, hs, rfl⟩
  · intro hpl
    subst hpl
    show _ ∈ writesTo (main ⟨pm, true⟩).1 launcher_iconset
    rw [writesTo_main_second]
    simp only [if_true]
    exact List.mem_map.mpr ⟨s, hs, rfl⟩

/-- C1 witness: the theorem applied at size 16 with both directories present. -/
theorem C1_files_written_witness :
    (toString 16 ++ ".png", create_icon 16) ∈ writesTo (run true ⟨true, true⟩).1 main_iconset ∧
    (toString 16 ++ ".png", create_icon 16) ∈ writesTo (run true ⟨true, true⟩).1 launcher_iconset ∧
    (create_icon 16).mode = "RGBA" ∧
    (create_icon 16).width = 16 ∧ (create_icon 16).height = 16 := by
  obtain ⟨h1, h2, h3, h4, h5⟩ := C1_files_written true true 16 (by decide)
  exact ⟨h1 rfl, h2 rfl, h3, h4, h5⟩

/-- C3 counterexample: at size 16 the claimed inset 0.05·16 = 0.8 is not the
inset actually used: create_icon 16 draws its rounded rectangle starting at
coordinate int(16·0.05) = 0, and 0 ≠ 0.8 (no padding at all at that size). -/
theorem C3_counterexample :
    (create_icon 16).ops.head? =
      some (DrawOp.rounded_rectangle 0 0 16 16 3 Color.black) ∧
    (0 : ℝ) ≠ 0.05 * 16 := by
  have hp : padding 16 = 0 := by
    unfold padding
    rw [show ((16 : ℕ) : ℚ) = (16 : ℚ) by norm_num, Int.floor_eq_iff]
    norm_num
  have hr : corner_radius 16 = 3 := by
    unfold corner_radius
    rw [show ((16 : ℕ) : ℚ) = (16 : ℚ) by norm_num, Int.floor_eq_iff]
    norm_num
  constructor
  · simp only [create_icon, List.head?_cons, hp, hr, Option.some.injEq]
    norm_num
  · norm_num

/-- C3 amended: create_icon allocates a size × size RGBA canvas that is
initially fully transparent, draws a black rounded rectangle inset by
⌊0.05·size⌋ (the real 0.05·size truncated to an integer) on all four sides
with corner radius ⌊0.22·size⌋, then draws a white snowflake centered at
(⌊size/2⌋, ⌊size/2⌋) passing the full canvas size as the glyph's scale
reference, and returns the canvas without failing; the truncated inset,
radius and center are within 1 of the claimed proportional values. -/
theorem C3_create_icon_structure (size : ℕ) :
    (create_icon size).mode = "RGBA" ∧
    (create_icon size).width = size ∧
    (create_icon size).height = size ∧
    (create_icon size).background = (0, 0, 0, 0) ∧
    (create_icon size).ops =
      DrawOp.rounded_rectangle ((padding size : ℤ) : ℝ) ((padding size : ℤ) : ℝ)
        ((size : ℝ) - ((padding size : ℤ) : ℝ)) ((size : ℝ) - ((padding size : ℤ) : ℝ))
        ((corner_radius size : ℤ) : ℝ) Color.black ::
        (draw_snowflake ((size / 2 : ℕ) : ℝ) ((size / 2 : ℕ) : ℝ) size Color.white).map
          DrawOp.line ∧
    (size : ℝ) * 0.05 - 1 < ((padding size : ℤ) : ℝ) ∧
    ((padding size : ℤ) : ℝ) ≤ (size : ℝ) * 0.05 ∧
    (size : ℝ) * 0.22 - 1 < ((corner_radius size : ℤ) : ℝ) ∧
    ((corner_radius size : ℤ) : ℝ) ≤ (size : ℝ) * 0.22 ∧
    (size : ℝ) / 2 - 1 < ((size / 2 : ℕ) : ℝ) ∧
    ((size / 2 : ℕ) : ℝ) ≤ (size : ℝ) / 2 := by
  have hcast : ∀ c : ℚ, (((size : ℚ) * c : ℚ) : ℝ) = (size : ℝ) * (c : ℝ) := by
    intro c; push_cast; ring
  have hpad_le : ((padding size : ℤ) : ℝ) ≤ (size : ℝ) * 0.05 := by
    have h := Int.floor_le ((size : ℚ) * 0.05)
    have h2 : (((padding size : ℤ) : ℚ) : ℝ) ≤ (((size : ℚ) * 0.05 : ℚ) : ℝ) := by
      exact_mod_cast h
    rw [hcast] at h2
    simpa using h2
  have hpad_gt : (size : ℝ) * 0.05 - 1 < ((padding size : ℤ) : ℝ) := by
    have h := Int.sub_one_lt_floor ((size : ℚ) * 0.05)
    have h2 : (((size : ℚ) * 0.05 - 1 : ℚ) : ℝ) < (((padding size : ℤ) : ℚ) : ℝ) := by
      exact_mod_cast h
    rw [show (((size : ℚ) * 0.05 - 1 : ℚ) : ℝ) = (size : ℝ) * 0.05 - 1 by push_cast; ring] at h2
    simpa using h2
  have hrad_le : ((corner_radius size : ℤ) : ℝ) ≤ (size : ℝ) * 0.22 := by
    have h := Int.floor_le ((size : ℚ) * 0.22)
    have h2 : (((corner_radius size : ℤ) : ℚ) : ℝ) ≤ (((size : ℚ) * 0.22 : ℚ) : ℝ) := by
      exact_mod_cast h
    rw [hcast] at h2
    simpa using h2
  have hrad_gt : (size : ℝ) * 0.22 - 1 < ((corner_radius size : ℤ) : ℝ) := by
    have h := Int.sub_one_lt_floor ((size : ℚ) * 0.22)
    have h2 : (((size : ℚ) * 0.22 - 1 : ℚ) : ℝ) < (((corner_radius size : ℤ) : ℚ) : ℝ) := by
      exact_mod_cast h
    rw [show (((size : ℚ) * 0.22 - 1 : ℚ) : ℝ) = (size : ℝ) * 0.22 - 1 by push_cast; ring] at h2
    simpa using h2
  have hdiv := Nat.div_add_mod size 2
  have hmod : size % 2 < 2 := Nat.mod_lt _ (by norm_num)
  have hdivR : 2 * ((size / 2 : ℕ) : ℝ) + ((size % 2 : ℕ) : ℝ) = (size : ℝ) := by
    exact_mod_cast congrArg (fun n : ℕ => (n : ℝ)) hdiv
  have hmodR : ((size % 2 : ℕ) : ℝ) ≤ 1 := by
    exact_mod_cast Nat.lt_succ_iff.mp hmod
  have hmodR0 : 0 ≤ ((size % 2 : ℕ) : ℝ) := by positivity
  refine ⟨rfl, rfl, rfl, rfl, rfl, hpad_gt, hpad_le, hrad_gt, hrad_le, ?_, ?_⟩
  · linarith
  · linarith

/-- C2: draw_snowflake performs exactly 18 line calls: for each i < 6 a
group of three, namely the main arm — starting at the center, pointing at
angle 60·i + 90 degrees, of Euclidean length 0.28·size — followed by its
two branches, which both start at the point at distance 0.14·size from the
center along the arm direction, point at −45 and +45 degrees from the arm
direction, and have Euclidean length 0.10·size. -/
theorem C2_snowflake_segments (cx cy : ℝ) (size : ℕ) (color : Color) :
    (draw_snowflake cx cy size color).length = 18 ∧
    ∀ i : ℕ, i < 6 →
      ∃ arm bneg bpos : LineCall,
        armOps cx cy size color i = [arm, bneg, bpos] ∧
        (arm.sx, arm.sy) = (cx, cy) ∧
        (arm.ex, arm.ey) =
          pointAt (cx, cy) (radians ((i : ℝ) * 60 + 90)) ((size : ℝ) * 0.28) ∧
        segLength arm.sx arm.sy arm.ex arm.ey = (size : ℝ) * 0.28 ∧
        (bneg.sx, bneg.sy) =
          pointAt (cx, cy) (radians ((i : ℝ) * 60 + 90)) ((size : ℝ) * 0.14) ∧
        (bpos.sx, bpos.sy) =
          pointAt (cx, cy) (radians ((i : ℝ) * 60 + 90)) ((size : ℝ) * 0.14) ∧
        (bneg.ex, bneg.ey) =
          pointAt (bneg.sx, bneg.sy) (radians ((i : ℝ) * 60 + 90) - radians 45)
            ((size : ℝ) * 0.10) ∧
        (bpos.ex, bpos.ey) =
          pointAt (bpos.sx, bpos.sy) (radians ((i : ℝ) * 60 + 90) + radians 45)
            ((size : ℝ) * 0.10) ∧
        segLength bneg.sx bneg.sy bneg.ex bneg.ey = (size : ℝ) * 0.10 ∧
        segLength bpos.sx bpos.sy bpos.ex bpos.ey = (size : ℝ) * 0.10 := by
  have harm : (0 : ℝ) ≤ arm_length size := by unfold arm_length; positivity
  have hbr : (0 : ℝ) ≤ branch_length size := by unfold branch_length; positivity
  constructor
  · rfl
  · intro i hi
    have hbneg : branchAngle i (-1) = radians ((i : ℝ) * 60 + 90) - radians 45 := by
      unfold branchAngle armAngle
      push_cast
      ring1
    have hbpos : branchAngle i 1 = radians ((i : ℝ) * 60 + 90) + radians 45 := by
      unfold branchAngle armAngle
      push_cast
      ring1
    refine ⟨_, _, _, rfl, rfl, rfl, ?_, rfl, rfl, ?_, ?_, ?_, ?_⟩
    · exact segLength_pointAt (cx, cy) (armAngle i) (arm_length size) harm
    · show ((branchEnd cx cy size i (-1)).1, (branchEnd cx cy size i (-1)).2) = _
      rw [show branchEnd cx cy size i (-1) =
          pointAt (branchStart cx cy size i) (branchAngle i (-1)) (branch_length size) from rfl,
        hbneg]
      rfl
    · show ((branchEnd cx cy size i 1).1, (branchEnd cx cy size i 1).2) = _
      rw [show branchEnd cx cy size i 1 =
          pointAt (branchStart cx cy size i) (branchAngle i 1) (branch_length size) from rfl,
        hbpos]
      rfl
    · exact segLength_pointAt (branchStart cx cy size i) (branchAngle i (-1))
        (branch_length size) hbr
    · exact segLength_pointAt (branchStart cx cy size i) (branchAngle i 1)
        (branch_length size) hbr

/-- Rotation by angle φ about point c in the script's screen convention
(y grows downward): the point at angle θ and distance r from c maps to the
point at angle θ + φ and distance r. -/
noncomputable def rotAbout (c : ℝ × ℝ) (φ : ℝ) (p : ℝ × ℝ) : ℝ × ℝ :=
  (c.1 + (p.1 - c.1) * Real.cos φ + (p.2 - c.2) * Real.sin φ,
   c.2 - (p.1 - c.1) * Real.sin φ + (p.2 - c.2) * Real.cos φ)

/-- Rotation applied to both endpoints of a recorded line call. -/
noncomputable def rotLine (c : ℝ × ℝ) (φ : ℝ) (l : LineCall) : LineCall :=
  { sx := (rotAbout c φ (l.sx, l.sy)).1
    sy := (rotAbout c φ (l.sx, l.sy)).2
    ex := (rotAbout c φ (l.ex, l.ey)).1
    ey := (rotAbout c φ (l.ex, l.ey)).2
    color := l.color
    width := l.width }

theorem armAngle_succ (i : ℕ) : armAngle (i + 1) = armAngle i + radians 60 := by
  unfold armAngle radians
  push_cast
  ring1

theorem rotLine_armOps (cx cy : ℝ) (size : ℕ) (color : Color) (i : ℕ) :
    (armOps cx cy size color i).map (rotLine (cx, cy) (radians 60)) =
      armOps cx cy size color (i + 1) := by
  simp only [armOps, List.map_cons, List.map_nil, rotLine, rotAbout, armEnd, branchStart,
    branchEnd, branchAngle, armAngle_succ, Real.cos_add, Real.sin_add,
    List.cons.injEq, LineCall.mk.injEq, and_true]
  repeat' apply And.intro
  all_goals first
  | rfl
  | ring1

theorem armAngle_six : armAngle 6 = armAngle 0 + 2 * Real.pi := by
  unfold armAngle radians
  push_cast
  ring1

theorem armOps_six (cx cy : ℝ) (size : ℕ) (color : Color) :
    armOps cx cy size color 6 = armOps cx cy size color 0 := by
  have hc : Real.cos (armAngle 6) = Real.cos (armAngle 0) := by
    rw [armAngle_six, Real.cos_add_two_pi]
  have hs : Real.sin (armAngle 6) = Real.sin (armAngle 0) := by
    rw [armAngle_six, Real.sin_add_two_pi]
  have hb : ∀ d : ℤ, branchAngle 6 d = branchAngle 0 d + 2 * Real.pi := by
    intro d
    unfold branchAngle
    rw [armAngle_six]
    ring1
  have hbc : ∀ d : ℤ, Real.cos (branchAngle 6 d) = Real.cos (branchAngle 0 d) := by
    intro d
    rw [hb d, Real.cos_add_two_pi]
  have hbs : ∀ d : ℤ, Real.sin (branchAngle 6 d) = Real.sin (branchAngle 0 d) := by
    intro d
    rw [hb d, Real.sin_add_two_pi]
  simp only [armOps, armEnd, branchStart, branchEnd, hc, hs, hbc, hbs]

/-- C4: the drawn segment collection is invariant under rotation by 60°
about the glyph center: rotating the three segments of arm i maps them onto
the segments of arm (i+1) mod 6, the full drawn list is mapped to a
permutation of itself, and the arm for i = 0 points in the canvas "up"
direction (its endpoint is straight above the center). -/
theorem C4_sixfold_symmetry (cx cy : ℝ) (size : ℕ) (color : Color) :
    (∀ i : ℕ, i < 6 →
      (armOps cx cy size color i).map (rotLine (cx, cy) (radians 60)) =
        armOps cx cy size color ((i + 1) % 6)) ∧
    List.Perm ((draw_snowflake cx cy size color).map (rotLine (cx, cy) (radians 60)))
      (draw_snowflake cx cy size color) ∧
    armEnd cx cy size 0 = (cx, cy - arm_length size) := by
  refine ⟨?_, ?_, ?_⟩
  · intro i hi
    interval_cases i
    · exact rotLine_armOps cx cy size color 0
    · exact rotLine_armOps cx cy size color 1
    · exact rotLine_armOps cx cy size color 2
    · exact rotLine_armOps cx cy size color 3
    · exact rotLine_armOps cx cy size color 4
    · show _ = armOps cx cy size color 0
      rw [rotLine_armOps cx cy size color 5]
      exact armOps_six cx cy size color
  · have e0 : draw_snowflake cx cy size color =
        armOps cx cy size color 0 ++ (armOps cx cy size color 1 ++ (armOps cx cy size color 2 ++
          (armOps cx cy size color 3 ++ (armOps cx cy size color 4 ++
            armOps cx cy size color 5)))) := by
      rfl
    have r0 := rotLine_armOps cx cy size color 0
    have r1 := rotLine_armOps cx cy size color 1
    have r2 := rotLine_armOps cx cy size color 2
    have r3 := rotLine_armOps cx cy size color 3
    have r4 := rotLine_armOps cx cy size color 4
    have r5 : (armOps cx cy size color 5).map (rotLine (cx, cy) (radians 60)) =
        armOps cx cy size color 0 := by
      rw [rotLine_armOps cx cy size color 5]
      exact armOps_six cx cy size color
    rw [e0]
    simp only [List.map_append, r0, r1, r2, r3, r4, r5]
    norm_num
    have hp := @List.perm_append_comm LineCall
      (armOps cx cy size color 1 ++ (armOps cx cy size color 2 ++ (armOps cx cy size color 3 ++
        (armOps cx cy size color 4 ++ armOps cx cy size color 5)))) (armOps cx cy size color 0)
    simpa [List.append_assoc] using hp
  · have h90 : armAngle 0 = Real.pi / 2 := by
      unfold armAngle radians
      push_cast
      ring1
    unfold armEnd
    rw [h90, Real.cos_pi_div_two, Real.sin_pi_div_two]
    simp only [Prod.mk.injEq]
    constructor <;> ring1

/-! Coverage rasterization model for the imaging dependency. The drawing
library is an external dependency of the script (not code of this
repository); its documented semantics are embedded here: a rectangle or
rounded-rectangle bounding box [x0, y0, x1, y1] includes both endpoints, the
filled rounded rectangle consists of the points of its box within distance
radius of the core box obtained by shrinking the box by radius on each side,
and the stroke of a line of width w covers the points within w/2 of its
central segment. A pixel is opaque where some draw call covers its
coordinate point, and keeps the background alpha elsewhere. -/

/-- Clamp x into the interval [lo, hi]. -/
noncomputable def clamp (lo hi x : ℝ) : ℝ := max lo (min hi x)

/-- The filled region of rounded_rectangle with (inclusive) bounding box
[x0, y0, x1, y1] and corner radius r, via squared distance to the core box. -/
def inRoundedRect (x0 y0 x1 y1 r : ℝ) (p : ℝ × ℝ) : Prop :=
  x0 ≤ p.1 ∧ p.1 ≤ x1 ∧ y0 ≤ p.2 ∧ p.2 ≤ y1 ∧
  (p.1 - clamp (x0 + r) (x1 - r) p.1) ^ 2 + (p.2 - clamp (y0 + r) (y1 - r) p.2) ^ 2 ≤ r ^ 2

/-- The stroke of a line call of width w: points within w/2 of some point
of the central segment, via squared distances. -/
def inLineStroke (l : LineCall) (p : ℝ × ℝ) : Prop :=
  ∃ t : ℝ, 0 ≤ t ∧ t ≤ 1 ∧
    (p.1 - (l.sx + t * (l.ex - l.sx))) ^ 2 + (p.2 - (l.sy + t * (l.ey - l.sy))) ^ 2 ≤
      ((l.width : ℝ) / 2) ^ 2

/-- Coverage of a point by one draw call. -/
def covers (op : DrawOp) (p : ℝ × ℝ) : Prop :=
  match op with
  | DrawOp.rounded_rectangle x0 y0 x1 y1 r _ => inRoundedRect x0 y0 x1 y1 r p
  | DrawOp.line l => inLineStroke l p

open Classical in
/-- Alpha channel of pixel (x, y) of an image under the coverage model. -/
noncomputable def alphaAt (icon : Icon) (x y : ℕ) : ℕ :=
  if ∃ op ∈ icon.ops, covers op ((x : ℝ), (y : ℝ)) then 255 else icon.background.2.2.2

/-! Numeric bounds on the truncated proportional constants. -/

theorem padding_bounds (size : ℕ) :
    0 ≤ ((padding size : ℤ) : ℝ) ∧ ((padding size : ℤ) : ℝ) ≤ (size : ℝ) * 0.05 := by
  constructor
  · have h : (0 : ℤ) ≤ padding size := by
      unfold padding
      rw [Int.le_floor]
      positivity
    exact_mod_cast h
  · have h : ((padding size : ℤ) : ℚ) ≤ (size : ℚ) * 0.05 := Int.floor_le _
    have h2 : (((padding size : ℤ) : ℚ) : ℝ) ≤ (((size : ℚ) * 0.05 : ℚ) : ℝ) := by
      exact_mod_cast h
    calc ((padding size : ℤ) : ℝ) = (((padding size : ℤ) : ℚ) : ℝ) := by push_cast; ring
      _ ≤ (((size : ℚ) * 0.05 : ℚ) : ℝ) := h2
      _ = (size : ℝ) * 0.05 := by push_cast; ring

theorem corner_radius_bounds (size : ℕ) (hsz : 19 ≤ size) :
    (4 : ℝ) ≤ ((corner_radius size : ℤ) : ℝ) ∧
    ((corner_radius size : ℤ) : ℝ) ≤ (size : ℝ) * 0.22 := by
  constructor
  · have h : (4 : ℤ) ≤ corner_radius size := by
      unfold corner_radius
      rw [Int.le_floor]
      have h19 : (19 : ℚ) ≤ (size : ℚ) := by exact_mod_cast hsz
      push_cast
      nlinarith
    exact_mod_cast h
  · have h : ((corner_radius size : ℤ) : ℚ) ≤ (size : ℚ) * 0.22 := Int.floor_le _
    have h2 : (((corner_radius size : ℤ) : ℚ) : ℝ) ≤ (((size : ℚ) * 0.22 : ℚ) : ℝ) := by
      exact_mod_cast h
    calc ((corner_radius size : ℤ) : ℝ) = (((corner_radius size : ℤ) : ℚ) : ℝ) := by
          push_cast; ring
      _ ≤ (((size : ℚ) * 0.22 : ℚ) : ℝ) := h2
      _ = (size : ℝ) * 0.22 := by push_cast; ring

theorem line_width_bounds (size : ℕ) :
    1 ≤ ((line_width size : ℤ) : ℝ) ∧
    ((line_width size : ℤ) : ℝ) ≤ 1 + (size : ℝ) * 0.04 := by
  constructor
  · have h : (1 : ℤ) ≤ line_width size := le_max_left 1 _
    exact_mod_cast h
  · have h : ((line_width size : ℤ) : ℚ) ≤ 1 + (size : ℚ) * 0.04 := by
      unfold line_width
      push_cast [Int.cast_max]
      apply max_le
      · have : (0 : ℚ) ≤ (size : ℚ) * 0.04 := by positivity
        linarith
      · have := Int.floor_le ((size : ℚ) * 0.04)
        linarith
    have h2 : (((line_width size : ℤ) : ℚ) : ℝ) ≤ ((1 + (size : ℚ) * 0.04 : ℚ) : ℝ) := by
      exact_mod_cast h
    calc ((line_width size : ℤ) : ℝ) = (((line_width size : ℤ) : ℚ) : ℝ) := by push_cast; ring
      _ ≤ ((1 + (size : ℚ) * 0.04 : ℚ) : ℝ) := h2
      _ = 1 + (size : ℝ) * 0.04 := by push_cast; ring

/-- The cast of size // 2 is within 1/2 of half the size. -/
theorem half_size_bounds (size : ℕ) :
    (size : ℝ) - 1 ≤ 2 * ((size / 2 : ℕ) : ℝ) ∧ 2 * ((size / 2 : ℕ) : ℝ) ≤ (size : ℝ) := by
  have hdiv := Nat.div_add_mod size 2
  have hmod : size % 2 < 2 := Nat.mod_lt _ (by norm_num)
  have hdivR : 2 * ((size / 2 : ℕ) : ℝ) + ((size % 2 : ℕ) : ℝ) = (size : ℝ) := by
    exact_mod_cast congrArg (fun n : ℕ => (n : ℝ)) hdiv
  have hmodR : ((size % 2 : ℕ) : ℝ) ≤ 1 := by
    exact_mod_cast Nat.lt_succ_iff.mp hmod
  have hmod0 : 0 ≤ ((size % 2 : ℕ) : ℝ) := by positivity
  constructor <;> linarith

theorem scale_abs_le (L x : ℝ) (hL : 0 ≤ L) (hx : |x| ≤ 1) : |L * x| ≤ L := by
  rw [abs_mul, abs_of_nonneg hL]
  exact mul_le_of_le_one_right hL hx

theorem t_scale_abs_le (t L x : ℝ) (h0 : 0 ≤ t) (h1 : t ≤ 1) (hL : 0 ≤ L) (hx : |x| ≤ 1) :
    |t * (L * x)| ≤ L := by
  rw [abs_mul, abs_of_nonneg h0]
  have h2 : |L * x| ≤ L := scale_abs_le L x hL hx
  have h3 : t * |L * x| ≤ 1 * |L * x| :=
    mul_le_mul_of_nonneg_right h1 (abs_nonneg _)
  calc t * |L * x| ≤ 1 * |L * x| := h3
    _ = |L * x| := one_mul _
    _ ≤ L := h2

/-- Every line call recorded by draw_snowflake has the computed stroke
width, and every point of its central segment stays within 0.28·size of the
center in each coordinate. -/
theorem snowflake_line_shape (cx cy : ℝ) (size : ℕ) (color : Color) (l : LineCall)
    (hl : l ∈ draw_snowflake cx cy size color) :
    l.width = line_width size ∧
    ∀ t : ℝ, 0 ≤ t → t ≤ 1 →
      |l.sx + t * (l.ex - l.sx) - cx| ≤ (size : ℝ) * 0.28 ∧
      |l.sy + t * (l.ey - l.sy) - cy| ≤ (size : ℝ) * 0.28 := by
  have hs : (0 : ℝ) ≤ (size : ℝ) := by positivity
  have h28 : (0 : ℝ) ≤ (size : ℝ) * 0.28 := by positivity
  have h14 : (0 : ℝ) ≤ (size : ℝ) * 0.14 := by positivity
  have h10 : (0 : ℝ) ≤ (size : ℝ) * 0.10 := by positivity
  unfold draw_snowflake at hl
  rw [List.mem_flatMap] at hl
  obtain ⟨i, _, hmem⟩ := hl
  have harmx : ∀ t : ℝ, 0 ≤ t → t ≤ 1 →
      |cx + t * ((armEnd cx cy size i).1 - cx) - cx| ≤ (size : ℝ) * 0.28 := by
    intro t h0 h1
    have he : cx + t * ((armEnd cx cy size i).1 - cx) - cx =
        t * ((size : ℝ) * 0.28 * Real.cos (armAngle i)) := by
      show cx + t * ((cx + arm_length size * Real.cos (armAngle i)) - cx) - cx = _
      unfold arm_length
      ring
    rw [he]
    exact t_scale_abs_le t _ _ h0 h1 h28 (Real.abs_cos_le_one _)
  have harmy : ∀ t : ℝ, 0 ≤ t → t ≤ 1 →
      |cy + t * ((armEnd cx cy size i).2 - cy) - cy| ≤ (size : ℝ) * 0.28 := by
    intro t h0 h1
    have he : cy + t * ((armEnd cx cy size i).2 - cy) - cy =
        t * ((size : ℝ) * 0.28 * (-Real.sin (armAngle i))) := by
      show cy + t * ((cy - arm_length size * Real.sin (armAngle i)) - cy) - cy = _
      unfold arm_length
      ring
    rw [he]
    refine t_scale_abs_le t _ _ h0 h1 h28 ?_
    rw [abs_neg]
    exact Real.abs_sin_le_one _
  have hbrx : ∀ d : ℤ, ∀ t : ℝ, 0 ≤ t → t ≤ 1 →
      |(branchStart cx cy size i).1 +
        t * ((branchEnd cx cy size i d).1 - (branchStart cx cy size i).1) - cx| ≤
        (size : ℝ) * 0.28 := by
    intro d t h0 h1
    have he : (branchStart cx cy size i).1 +
        t * ((branchEnd cx cy size i d).1 - (branchStart cx cy size i).1) - cx =
        (size : ℝ) * 0.14 * Real.cos (armAngle i) +
          t * ((size : ℝ) * 0.10 * Real.cos (branchAngle i d)) := by
      show (cx + branch_offset size * Real.cos (armAngle i)) +
          t * (((cx + branch_offset size * Real.cos (armAngle i)) +
            branch_length size * Real.cos (branchAngle i d) -
            (cx + branch_offset size * Real.cos (armAngle i)))) - cx = _
      unfold branch_offset branch_length
      ring
    rw [he]
    calc |(size : ℝ) * 0.14 * Real.cos (armAngle i) +
          t * ((size : ℝ) * 0.10 * Real.cos (branchAngle i d))|
        ≤ |(size : ℝ) * 0.14 * Real.cos (armAngle i)| +
          |t * ((size : ℝ) * 0.10 * Real.cos (branchAngle i d))| := abs_add _ _
      _ ≤ (size : ℝ) * 0.14 + (size : ℝ) * 0.10 :=
          add_le_add (scale_abs_le _ _ h14 (Real.abs_cos_le_one _))
            (t_scale_abs_le t _ _ h0 h1 h10 (Real.abs_cos_le_one _))
      _ ≤ (size : ℝ) * 0.28 := by linarith
  have hbry : ∀ d : ℤ, ∀ t : ℝ, 0 ≤ t → t ≤ 1 →
      |(branchStart cx cy size i).2 +
        t * ((branchEnd cx cy size i d).2 - (branchStart cx cy size i).2) - cy| ≤
        (size : ℝ) * 0.28 := by
    intro d t h0 h1
    have he : (branchStart cx cy size i).2 +
        t * ((branchEnd cx cy size i d).2 - (branchStart cx cy size i).2) - cy =
        (size : ℝ) * 0.14 * (-Real.sin (armAngle i)) +
          t * ((size : ℝ) * 0.10 * (-Real.sin (branchAngle i d))) := by
      show (cy - branch_offset size * Real.sin (armAngle i)) +
          t * (((cy - branch_offset size * Real.sin (armAngle i)) -
            branch_length size * Real.sin (branchAngle i d) -
            (cy - branch_offset size * Real.sin (armAngle i)))) - cy = _
      unfold branch_offset branch_length
      ring
    rw [he]
    have habs : ∀ θ : ℝ, |(-Real.sin θ)| ≤ 1 := by
      intro θ
      rw [abs_neg]
      exact Real.abs_sin_le_one _
    calc |(size : ℝ) * 0.14 * (-Real.sin (armAngle i)) +
          t * ((size : ℝ) * 0.10 * (-Real.sin (branchAngle i d)))|
        ≤ |(size : ℝ) * 0.14 * (-Real.sin (armAngle i))| +
          |t * ((size : ℝ) * 0.10 * (-Real.sin (branchAngle i d)))| := abs_add _ _
      _ ≤ (size : ℝ) * 0.14 + (size : ℝ) * 0.10 :=
          add_le_add (scale_abs_le _ _ h14 (habs _))
            (t_scale_abs_le t _ _ h0 h1 h10 (habs _))
      _ ≤ (size : ℝ) * 0.28 := by linarith
  simp only [armOps, List.mem_cons, List.not_mem_nil, or_false] at hmem
  rcases hmem with h | h | h <;> subst h
  · exact ⟨rfl, fun t h0 h1 => ⟨harmx t h0 h1, harmy t h0 h1⟩⟩
  · exact ⟨rfl, fun t h0 h1 => ⟨hbrx (-1) t h0 h1, hbry (-1) t h0 h1⟩⟩
  · exact ⟨rfl, fun t h0 h1 => ⟨hbrx 1 t h0 h1, hbry 1 t h0 h1⟩⟩

/-- For size ≥ 19, no snowflake stroke of create_icon reaches a point whose
x-coordinate is a canvas corner coordinate. -/
theorem corner_avoids_lines (size : ℕ) (hsz : 19 ≤ size) (a b : ℝ)
    (ha : a = 0 ∨ a = (size : ℝ) - 1) (l : LineCall)
    (hl : l ∈ draw_snowflake ((size / 2 : ℕ) : ℝ) ((size / 2 : ℕ) : ℝ) size Color.white) :
    ¬inLineStroke l (a, b) := by
  rintro ⟨t, h0, h1, hle⟩
  obtain ⟨hw, hbound⟩ := snowflake_line_shape _ _ _ _ l hl
  obtain ⟨hx, _⟩ := hbound t h0 h1
  have hs : (19 : ℝ) ≤ (size : ℝ) := by exact_mod_cast hsz
  obtain ⟨hc2, hc1⟩ := half_size_bounds size
  have hwle : ((l.width : ℤ) : ℝ) ≤ 1 + (size : ℝ) * 0.04 := by
    rw [hw]; exact (line_width_bounds size).2
  have hw1 : (1 : ℝ) ≤ ((l.width : ℤ) : ℝ) := by
    rw [hw]; exact (line_width_bounds size).1
  have hxabs := abs_le.mp hx
  have hxsq : (a - (l.sx + t * (l.ex - l.sx))) ^ 2 ≤ (((l.width : ℤ) : ℝ) / 2) ^ 2 := by
    nlinarith [sq_nonneg (b - (l.sy + t * (l.ey - l.sy)))]
  rcases ha with ha | ha <;> subst ha
  · have hgt : ((l.width : ℤ) : ℝ) / 2 < l.sx + t * (l.ex - l.sx) := by
      linarith [hxabs.1]
    have hpos : (0 : ℝ) < ((l.width : ℤ) : ℝ) / 2 := by linarith
    nlinarith [hxsq, hgt, hpos]
  · have hgt : ((l.width : ℤ) : ℝ) / 2 < ((size : ℝ) - 1) - (l.sx + t * (l.ex - l.sx)) := by
      linarith [hxabs.2]
    have hpos : (0 : ℝ) < ((l.width : ℤ) : ℝ) / 2 := by linarith
    nlinarith [hxsq, hgt, hpos]

/-- For size ≥ 19, the black rounded rectangle of create_icon does not
cover any of the four canvas corner points. -/
theorem corner_avoids_rect (size : ℕ) (hsz : 19 ≤ size) (a b : ℝ)
    (ha : a = 0 ∨ a = (size : ℝ) - 1) (hb : b = 0 ∨ b = (size : ℝ) - 1) :
    ¬inRoundedRect ((padding size : ℤ) : ℝ) ((padding size : ℤ) : ℝ)
        ((size : ℝ) - ((padding size : ℤ) : ℝ)) ((size : ℝ) - ((padding size : ℤ) : ℝ))
        ((corner_radius size : ℤ) : ℝ) (a, b) := by
  rintro ⟨_, _, _, _, hdist⟩
  set s := (size : ℝ) with hsdef
  set p := ((padding size : ℤ) : ℝ) with hpdef
  set r := ((corner_radius size : ℤ) : ℝ) with hrdef
  have hs : (19 : ℝ) ≤ s := by rw [hsdef]; exact_mod_cast hsz
  obtain ⟨hp0, hple⟩ := padding_bounds size
  obtain ⟨hr4, hrle⟩ := corner_radius_bounds size hsz
  have hcore : p + r ≤ s - p - r := by linarith
  have hcore0 : 0 ≤ s - p - r := by linarith
  have hclamp0 : clamp (p + r) (s - p - r) 0 = p + r := by
    unfold clamp
    rw [min_eq_right hcore0, max_eq_left (by linarith)]
  have hclamp1 : clamp (p + r) (s - p - r) (s - 1) = s - p - r := by
    unfold clamp
    rw [min_eq_left (by linarith), max_eq_right hcore]
  have hA : ∀ x : ℝ, x = 0 ∨ x = s - 1 →
      ((p + r) - 1) ^ 2 ≤ (x - clamp (p + r) (s - p - r) x) ^ 2 := by
    intro x hx
    rcases hx with hx | hx <;> subst hx
    · rw [hclamp0]
      nlinarith [hp0, hr4]
    · rw [hclamp1]
      have he : (s - 1) - (s - p - r) = (p + r) - 1 := by ring
      rw [he]
  have hterm : ((p + r) - 1) ^ 2 + ((p + r) - 1) ^ 2 ≤ r ^ 2 := by
    have h1 := hA a ha
    have h2 := hA b hb
    linarith [hdist]
  have hu3 : (3 : ℝ) ≤ (p + r) - 1 := by linarith
  have hu0 : (0 : ℝ) ≤ (p + r) - 1 := by linarith
  have hr0 : (0 : ℝ) ≤ r := by linarith
  have hru : r ≤ ((p + r) - 1) + 1 := by linarith
  have hsq1 : r * r ≤ (((p + r) - 1) + 1) * (((p + r) - 1) + 1) :=
    mul_le_mul hru hru hr0 (by linarith)
  have hsq2 : 3 * ((p + r) - 1) ≤ ((p + r) - 1) * ((p + r) - 1) :=
    mul_le_mul_of_nonneg_right hu3 hu0
  nlinarith [hterm, hsq1, hsq2]

/-- C7 counterexample: at size 16 — one of the generated sizes — the
padding truncates to 0, so the rounded rectangle's inclusive bounding box
is [0, 0, 16, 16] with radius 3, anchored one pixel past the 0..15 pixel
grid on the right and bottom; the bottom-right corner pixel (15, 15) lies
strictly inside the bottom-right corner disc (squared distance 8 ≤ 9), so
its alpha is 255, not 0. -/
theorem C7_counterexample :
    alphaAt (create_icon 16) 15 15 = 255 ∧ (255 : ℕ) ≠ 0 := by
  have hp : ((padding 16 : ℤ) : ℝ) = 0 := by
    have h : padding 16 = 0 := by
      unfold padding
      rw [show ((16 : ℕ) : ℚ) = (16 : ℚ) by norm_num, Int.floor_eq_iff]
      norm_num
    rw [h]
    norm_num
  have hr : ((corner_radius 16 : ℤ) : ℝ) = 3 := by
    have h : corner_radius 16 = 3 := by
      unfold corner_radius
      rw [show ((16 : ℕ) : ℚ) = (16 : ℚ) by norm_num, Int.floor_eq_iff]
      norm_num
    rw [h]
    norm_num
  refine ⟨?_, by norm_num⟩
  unfold alphaAt
  rw [if_pos]
  refine ⟨DrawOp.rounded_rectangle ((padding 16 : ℤ) : ℝ) ((padding 16 : ℤ) : ℝ)
      (((16 : ℕ) : ℝ) - ((padding 16 : ℤ) : ℝ)) (((16 : ℕ) : ℝ) - ((padding 16 : ℤ) : ℝ))
      ((corner_radius 16 : ℤ) : ℝ) Color.black, List.mem_cons_self _ _, ?_⟩
  show inRoundedRect ((padding 16 : ℤ) : ℝ) ((padding 16 : ℤ) : ℝ)
      (((16 : ℕ) : ℝ) - ((padding 16 : ℤ) : ℝ)) (((16 : ℕ) : ℝ) - ((padding 16 : ℤ) : ℝ))
      ((corner_radius 16 : ℤ) : ℝ) (((15 : ℕ) : ℝ), ((15 : ℕ) : ℝ))
  rw [hp, hr]
  unfold inRoundedRect clamp
  push_cast
  norm_num [min_def, max_def]

/-- C7 amended: for every size ≥ 19 the four outermost corner pixels of the
image returned by create_icon have alpha = 0: every corner coordinate lies
farther from the core of the rounded rectangle than the corner radius, and
farther from every snowflake stroke than half the stroke width. (At sizes
16, 17 and 18 the padding truncates to 0 and the bottom-right corner pixel
falls inside the bottom-right corner disc, so it is excluded.) -/
theorem C7_corners_transparent (size : ℕ) (hsz : 19 ≤ size) :
    alphaAt (create_icon size) 0 0 = 0 ∧
    alphaAt (create_icon size) (size - 1) 0 = 0 ∧
    alphaAt (create_icon size) 0 (size - 1) = 0 ∧
    alphaAt (create_icon size) (size - 1) (size - 1) = 0 := by
  have h1 : 1 ≤ size := by omega
  have hc0 : ((0 : ℕ) : ℝ) = 0 := by norm_num
  have hc1 : ((size - 1 : ℕ) : ℝ) = (size : ℝ) - 1 := by
    rw [Nat.cast_sub h1]
    norm_num
  have hkey : ∀ a b : ℝ, a = 0 ∨ a = (size : ℝ) - 1 → b = 0 ∨ b = (size : ℝ) - 1 →
      ¬∃ op ∈ (create_icon size).ops, covers op (a, b) := by
    rintro a b ha hb ⟨op, hop, hcov⟩
    rcases List.mem_cons.mp hop with heq | hop2
    · subst heq
      exact corner_avoids_rect size hsz a b ha hb hcov
    · obtain ⟨l, hlmem, heq⟩ := List.mem_map.mp hop2
      subst heq
      exact corner_avoids_lines size hsz a b ha l hlmem hcov
  refine ⟨?_, ?_, ?_, ?_⟩ <;>
    · unfold alphaAt
      rw [if_neg]
      · rfl
      · first
        | exact hkey _ _ (Or.inl hc0) (Or.inl hc0)
        | exact hkey _ _ (Or.inr hc1) (Or.inl hc0)
        | exact hkey _ _ (Or.inl hc0) (Or.inr hc1)
        | exact hkey _ _ (Or.inr hc1) (Or.inr hc1)

/-- C7 amended witness: the amended theorem applied at size 256. -/
theorem C7_corners_transparent_witness :
    (19 ≤ 256) ∧
    (alphaAt (create_icon 256) 0 0 = 0 ∧
     alphaAt (create_icon 256) 255 0 = 0 ∧
     alphaAt (create_icon 256) 0 255 = 0 ∧
     alphaAt (create_icon 256) 255 255 = 0) :=
  ⟨by norm_num, C7_corners_transparent 256 (by norm_num)⟩

end Frost
